import Mathlib

/-!
Verification of the Bolt protocol session layer specification against the
neo4j-javascript-driver sources.  The repository ships the Bolt v5.1
protocol object, the graph type declarations and the transaction/Bolt-V3
test suites; the remaining session-layer components (pipeline, codec,
transaction state machine, bookmark handling) are modelled from the
specification, as indicated on each definition.
-/

set_option maxHeartbeats 1600000
set_option maxRecDepth 8000

/-- Boolean test that one character list starts with another. -/
def startsWithL : List Char → List Char → Bool
  | [], _ => true
  | _ :: _, [] => false
  | n :: ns, h :: hs => n == h && startsWithL ns hs

/-- Boolean test that `needle` occurs somewhere inside the character
list. -/
def hasSub (needle : List Char) : List Char → Bool
  | [] => needle.isEmpty
  | c :: hs => startsWithL needle (c :: hs) || hasSub needle hs

/-- Boolean test that `needle` occurs somewhere inside `hay`. -/
def mentions (needle hay : String) : Bool :=
  hasSub needle.toList hay.toList

/-! ## Transaction state machine (modelled from the spec, §3 and §4.5) -/

/-- Modelled from the spec: the transaction lifecycle states
ACTIVE, COMMITTED, ROLLED_BACK and FAILED_PENDING_ROLLBACK (§3). -/
inductive TxState where
  | active
  | committed
  | rolledBack
  | failedPendingRollback
deriving DecidableEq, Repr

/-- Operations a caller may invoke on an explicit transaction; a `run`
carries whether the server accepts or rejects the query. -/
inductive TxOp where
  | run (succeeds : Bool)
  | commit
  | rollback
deriving DecidableEq, Repr

/-- Wire-level request messages relevant to the transaction machine (§6). -/
inductive WireMsg where
  | runMsg
  | beginMsg
  | commitMsg
  | rollbackMsg
deriving DecidableEq, Repr

/-- Result of one transaction-machine step: the successor state, the
messages written to the wire and the synchronously raised domain error
(if any). -/
structure TxStep where
  next : TxState
  wire : List WireMsg
  error : Option String
deriving DecidableEq, Repr

/-- Domain error raised for a `run` on a transaction that previously
failed; the wording matches the driver messages asserted by
`transaction.test.js`. -/
def runAfterFailureMsg : String :=
  "Cannot run query in this transaction, because it has been rolled back either because of an error or explicit termination."

/-- Domain error raised for a `commit` on a transaction that previously
failed. -/
def commitAfterFailureMsg : String :=
  "Cannot commit this transaction, because it has been rolled back either because of an error or explicit termination."

/-- Domain error raised on a committed transaction, naming the terminal
state reached. -/
def afterCommitMsg (verb : String) : String :=
  "Cannot " ++ verb ++ " this transaction, because it has already been committed."

/-- Domain error raised on a rolled-back transaction, naming the terminal
state reached. -/
def afterRollbackMsg (verb : String) : String :=
  "Cannot " ++ verb ++ " this transaction, because it has already been rolled back."

/-- Name of a transaction operation as it appears in the domain error
messages. -/
def TxOp.verb : TxOp → String
  | .run _ => "run query in"
  | .commit => "commit"
  | .rollback => "rollback"

/-- Modelled from the spec: one step of the explicit-transaction state
machine (§4.5).  Legal steps write their wire message; illegal steps
raise a domain error synchronously and write nothing. -/
def txStep : TxState → TxOp → TxStep
  | .active, .run true => ⟨.active, [.runMsg], none⟩
  | .active, .run false => ⟨.failedPendingRollback, [.runMsg], none⟩
  | .active, .commit => ⟨.committed, [.commitMsg], none⟩
  | .active, .rollback => ⟨.rolledBack, [.rollbackMsg], none⟩
  | .failedPendingRollback, .run _ =>
      ⟨.failedPendingRollback, [], some runAfterFailureMsg⟩
  | .failedPendingRollback, .commit =>
      ⟨.failedPendingRollback, [], some commitAfterFailureMsg⟩
  | .failedPendingRollback, .rollback => ⟨.rolledBack, [.rollbackMsg], none⟩
  | .committed, op => ⟨.committed, [], some (afterCommitMsg op.verb)⟩
  | .rolledBack, op => ⟨.rolledBack, [], some (afterRollbackMsg op.verb)⟩

/-! ## Transaction configuration validation and version gating
(modelled from the spec, §4.3 and §6) -/

/-- Modelled from the spec: the JavaScript values a caller may pass in a
transaction-config object.  `decimal` stands for a non-integer number. -/
inductive JsVal where
  | int (n : Int)
  | decimal
  | str (s : String)
  | list (vs : List JsVal)
  | obj (fields : List (String × JsVal))
  | func

/-- A timeout value is valid when it is a non-negative integer number of
milliseconds (§6 config surface). -/
def timeoutValid : JsVal → Bool
  | .int n => decide (0 ≤ n)
  | _ => false

/-- A metadata value is valid when it is a plain string-keyed map (§6). -/
def metadataValid : JsVal → Bool
  | .obj _ => true
  | _ => false

/-- A validated transaction configuration. -/
structure TxConfig where
  metadata : Option (List (String × JsVal))
  timeout : Option Int

/-- Modelled from the spec: client-side validation of a raw timeout
value (§6: non-negative integer milliseconds). -/
def parseTimeout : Option JsVal → Except String (Option Int)
  | none => .ok none
  | some (.int n) =>
    if 0 ≤ n then .ok (some n)
    else .error "Transaction timeout should be a non-negative integer"
  | some _ => .error "Transaction timeout should be an integer"

/-- Modelled from the spec: client-side validation of a raw metadata
value (§6: plain string-keyed map). -/
def parseMetadata :
    Option JsVal → Except String (Option (List (String × JsVal)))
  | none => .ok none
  | some (.obj fields) => .ok (some fields)
  | some _ => .error "Transaction metadata should be an object"

/-- Modelled from the spec: client-side validation of the raw
transaction-config values, performed before anything is written to the
wire (§6). -/
def parseTxConfig (rawTimeout rawMetadata : Option JsVal) :
    Except String TxConfig :=
  match parseTimeout rawTimeout, parseMetadata rawMetadata with
  | .ok t, .ok m => .ok ⟨m, t⟩
  | .error e, _ => .error e
  | .ok _, .error e => .error e

/-- Error raised when the negotiated Bolt version cannot carry a
transaction configuration; wording matches the tests in `bolt-v3` suites. -/
def unsupportedTxConfigMsg : String :=
  "Driver is connected to the database that does not support transaction configuration. Please upgrade to neo4j 3.5.0 or later in order to use this functionality"

/-- Outcome of a session-level call: the synchronous error (if any) and
the messages written to the wire. -/
structure SessionOutcome where
  error : Option String
  wire : List WireMsg
deriving Repr

/-- Modelled from the spec: the version gate applied to a validated
transaction configuration (§4.3).  Versions below 3 support no
transaction configuration, so a non-empty configuration fails fast,
client side, with no wire traffic. -/
def runGate (version : Nat) (cfg : TxConfig) : SessionOutcome :=
  if (cfg.metadata.isSome || cfg.timeout.isSome) && decide (version < 3) then
    ⟨some unsupportedTxConfigMsg, []⟩
  else
    ⟨none, [.runMsg]⟩

/-- Modelled from the spec: a session `run` with a raw transaction
configuration first validates the configuration, then applies the
version gate, and only then writes the RUN message. -/
def sessionRun (version : Nat) (rawTimeout rawMetadata : Option JsVal) :
    SessionOutcome :=
  match parseTxConfig rawTimeout rawMetadata with
  | .error e => ⟨some e, []⟩
  | .ok cfg => runGate version cfg

/-! ## Bookmarks (modelled from the spec, §3 Bookmark) -/

/-- Largest bookmark in a set (zero for the empty set). -/
def maxBookmark (bs : List Nat) : Nat := bs.foldr max 0

/-- Modelled from the spec: the server's bookmark issuance state; the
counter dominates every token the server has issued so far. -/
structure ServerClock where
  counter : Nat
deriving DecidableEq, Repr

/-- Modelled from the spec: committing a transaction yields a token that
is causally after every bookmark passed in and after everything the
server issued before (§3: tokens are totally ordered by the server). -/
def serverCommit (c : ServerClock) (inputs : List Nat) :
    ServerClock × Nat :=
  (⟨c.counter + maxBookmark inputs + 1⟩,
   c.counter + maxBookmark inputs + 1)

/-- The bookmark state a session holds between transactions. -/
structure SessionBk where
  lastBookmarks : List Nat
deriving DecidableEq, Repr

/-- Modelled from the spec: a committed transaction begins from the
session's bookmark set and replaces it with the returned token (§3). -/
def sessionCommitTx (c : ServerClock) (s : SessionBk) :
    ServerClock × SessionBk :=
  ((serverCommit c s.lastBookmarks).1,
   ⟨[(serverCommit c s.lastBookmarks).2]⟩)

/-- Every bookmark of `xs` is strictly causally before every bookmark of
`ys`. -/
def allBefore (xs ys : List Nat) : Bool :=
  xs.all fun x => ys.all fun y => decide (x < y)

/-! ## Theorems for the transaction state machine -/

/-- C3: after a failed run the transaction sits in
FAILED_PENDING_ROLLBACK; there every further run and every commit fails
immediately with a domain error (the commit message matching
"Cannot commit ... because ... of an error") and writes nothing to the
wire, while rollback succeeds and still sends the wire ROLLBACK. -/
theorem failed_tx_pending_rollback :
    txStep .active (.run false)
      = ⟨.failedPendingRollback, [.runMsg], none⟩
    ∧ (∀ ok : Bool,
        (txStep .failedPendingRollback (.run ok)).wire = []
        ∧ (txStep .failedPendingRollback (.run ok)).error
            = some runAfterFailureMsg)
    ∧ (txStep .failedPendingRollback .commit).wire = []
    ∧ (txStep .failedPendingRollback .commit).error
        = some commitAfterFailureMsg
    ∧ mentions "Cannot commit this transaction, because"
        commitAfterFailureMsg = true
    ∧ mentions "of an error" commitAfterFailureMsg = true
    ∧ txStep .failedPendingRollback .rollback
        = ⟨.rolledBack, [.rollbackMsg], none⟩ := by
  refine ⟨rfl, ?_, rfl, rfl, ?_, ?_, rfl⟩
  · intro ok; cases ok <;> exact ⟨rfl, rfl⟩
  · decide
  · decide

/-- C4: on a transaction in a terminal state every further run, commit
or rollback fails with a domain error naming the terminal state reached
("committed" after a commit, "rolled back" after a rollback) and writes
nothing to the wire. -/
theorem terminal_tx_rejects :
    ∀ op : TxOp,
      (txStep .committed op).wire = []
      ∧ (txStep .committed op).next = .committed
      ∧ mentions "committed" (((txStep .committed op).error).getD "") = true
      ∧ (txStep .rolledBack op).wire = []
      ∧ (txStep .rolledBack op).next = .rolledBack
      ∧ mentions "rolled back" (((txStep .rolledBack op).error).getD "")
          = true := by
  intro op
  cases op with
  | run ok => cases ok <;> exact ⟨rfl, rfl, by decide, rfl, rfl, by decide⟩
  | commit => exact ⟨rfl, rfl, by decide, rfl, rfl, by decide⟩
  | rollback => exact ⟨rfl, rfl, by decide, rfl, rfl, by decide⟩

/-! ## Theorems for configuration validation and version gating -/

/-- C7: on a connection whose negotiated protocol version is below 3, a
run carrying a transaction configuration with metadata or timeout fails
client side with the "does not support transaction configuration" error
and performs zero wire writes. -/
theorem tx_config_version_gate :
    ∀ (version : Nat) (rawTimeout rawMetadata : Option JsVal)
      (cfg : TxConfig),
      version < 3 →
      parseTxConfig rawTimeout rawMetadata = .ok cfg →
      (cfg.metadata.isSome || cfg.timeout.isSome) = true →
      sessionRun version rawTimeout rawMetadata
          = ⟨some unsupportedTxConfigMsg, []⟩
        ∧ mentions "does not support transaction configuration"
            unsupportedTxConfigMsg = true := by
  intro version rawTimeout rawMetadata cfg hv hp hsome
  refine ⟨?_, by decide⟩
  unfold sessionRun
  rw [hp]
  simp [runGate, hsome, hv]

/-- Closed witness for `tx_config_version_gate` at version 2 with a
concrete timeout of 42 milliseconds. -/
theorem tx_config_version_gate_witness :
    sessionRun 2 (some (.int 42)) none
        = ⟨some unsupportedTxConfigMsg, []⟩
      ∧ mentions "does not support transaction configuration"
          unsupportedTxConfigMsg = true :=
  tx_config_version_gate 2 (some (.int 42)) none ⟨none, some 42⟩
    (by decide) rfl rfl

/-- C9: an invalid request-level transaction configuration — a negative
or non-integer timeout, or metadata that is not a plain string-keyed
map — is rejected client side before any wire write, at every protocol
version. -/
theorem tx_config_validation :
    ∀ (version : Nat) (t m : JsVal),
      (timeoutValid t = false →
        (sessionRun version (some t) none).error.isSome = true
        ∧ (sessionRun version (some t) none).wire = [])
      ∧ (metadataValid m = false →
        (sessionRun version none (some m)).error.isSome = true
        ∧ (sessionRun version none (some m)).wire = []) := by
  intro version t m
  constructor
  · intro ht
    cases t with
    | int n =>
      simp only [timeoutValid, decide_eq_false_iff_not] at ht
      simp [sessionRun, parseTxConfig, parseTimeout, if_neg ht]
    | decimal => exact ⟨rfl, rfl⟩
    | str s => exact ⟨rfl, rfl⟩
    | list vs => exact ⟨rfl, rfl⟩
    | obj fields => exact ⟨rfl, rfl⟩
    | func => exact ⟨rfl, rfl⟩
  · intro hm
    cases m with
    | int n => exact ⟨rfl, rfl⟩
    | decimal => exact ⟨rfl, rfl⟩
    | str s => exact ⟨rfl, rfl⟩
    | list vs => exact ⟨rfl, rfl⟩
    | obj fields => exact absurd hm (by simp [metadataValid])
    | func => exact ⟨rfl, rfl⟩

/-- Closed witness for `tx_config_validation`: a negative timeout and a
string metadata value are both rejected with no wire traffic. -/
theorem tx_config_validation_witness :
    ((sessionRun 4 (some (.int (-1))) none).error.isSome = true
      ∧ (sessionRun 4 (some (.int (-1))) none).wire = [])
    ∧ ((sessionRun 4 none (some (.str "metadata"))).error.isSome = true
      ∧ (sessionRun 4 none (some (.str "metadata"))).wire = []) :=
  ⟨(tx_config_validation 4 (.int (-1)) (.str "metadata")).1 rfl,
   (tx_config_validation 4 (.int (-1)) (.str "metadata")).2 rfl⟩

/-! ## Theorems for bookmarks -/

/-- Any member of a bookmark set is bounded by `maxBookmark`. -/
theorem le_maxBookmark {b : Nat} {bs : List Nat} :
    b ∈ bs → b ≤ maxBookmark bs := by
  induction bs with
  | nil => intro h; cases h
  | cons x xs ih =>
    intro h
    rcases List.mem_cons.mp h with h | h
    · subst h; exact le_max_left _ _
    · exact le_trans (ih h) (le_max_right _ _)

/-- C8: two sequential committed transactions on one session produce a
second bookmark set that is non-empty, different from the first and
causally after it; and the bookmark set after a commit is causally after
the input set passed in (monotonicity). -/
theorem bookmark_monotonic :
    ∀ (c : ServerClock) (s : SessionBk),
      ((sessionCommitTx (sessionCommitTx c s).1
          (sessionCommitTx c s).2).2.lastBookmarks ≠ [])
      ∧ (sessionCommitTx (sessionCommitTx c s).1
          (sessionCommitTx c s).2).2 ≠ (sessionCommitTx c s).2
      ∧ allBefore (sessionCommitTx c s).2.lastBookmarks
          (sessionCommitTx (sessionCommitTx c s).1
            (sessionCommitTx c s).2).2.lastBookmarks = true
      ∧ allBefore s.lastBookmarks
          (sessionCommitTx c s).2.lastBookmarks = true := by
  intro c s
  refine ⟨by simp [sessionCommitTx, serverCommit], ?_, ?_, ?_⟩
  · simp only [sessionCommitTx, serverCommit]
    intro h
    have h2 := congrArg SessionBk.lastBookmarks h
    simp only [List.cons.injEq, and_true] at h2
    simp only [maxBookmark, List.foldr_cons, List.foldr_nil,
      Nat.max_zero] at h2
    omega
  · simp only [allBefore, sessionCommitTx, serverCommit, List.all_eq_true]
    intro x hx y hy
    simp only [List.mem_singleton] at hx hy
    subst hx; subst hy
    simp only [maxBookmark, List.foldr_cons, List.foldr_nil, Nat.max_zero,
      decide_eq_true_eq]
    omega
  · simp only [allBefore, sessionCommitTx, serverCommit, List.all_eq_true]
    intro x hx y hy
    simp only [List.mem_singleton] at hy
    subst hy
    have := le_maxBookmark hx
    simp only [decide_eq_true_eq]
    omega

/-! ## Bolt v5.1 protocol object (embedded from `bolt-protocol-v5x1.js`,
`src/unnamed/part_000`) -/

namespace Bolt5x1

/-- Request messages the v5.1 protocol object writes during
initialization (`RequestMessage.hello5x1`, `.logon`, `.logoff`). -/
inductive RequestMessage where
  | hello5x1 (userAgent : String)
      (serversideRouting : Option (List (String × String)))
  | logon (authToken : List (String × String))
  | logoff
deriving DecidableEq, Repr

/-- The observer kinds attached to the handshake writes
(`LoginObserver` / `LogoffObserver` from stream-observers.js). -/
inductive ObsKind where
  | loginObserver
  | logoffObserver
deriving DecidableEq, Repr

/-- State of the protocol's write channel: the requests written so far,
each with its observer kind and flush flag, in call order. -/
structure ProtoState where
  writes : List (RequestMessage × ObsKind × Bool)
deriving DecidableEq, Repr

/-- Embedding of `BoltProtocol.write(message, observer, flush)`. -/
def write (p : ProtoState) (m : RequestMessage) (o : ObsKind)
    (flush : Bool) : ProtoState :=
  ⟨p.writes ++ [(m, o, flush)]⟩

/-- Embedding of `BoltProtocol.logon` (bolt-protocol-v5x1.js lines
93-106): writes a LOGON message carrying the auth token, monitored by a
LoginObserver, with the caller-provided flush flag. -/
def logon (p : ProtoState) (authToken : List (String × String))
    (flush : Bool) : ProtoState :=
  write p (.logon authToken) .loginObserver flush

/-- Embedding of `BoltProtocol.logoff` (bolt-protocol-v5x1.js lines
118-131). -/
def logoff (p : ProtoState) (flush : Bool) : ProtoState :=
  write p .logoff .logoffObserver flush

/-- Embedding of `BoltProtocol.initialize` (bolt-protocol-v5x1.js lines
58-80): write HELLO (`RequestMessage.hello5x1`) without flushing, then
delegate to `logon` with flush set. -/
def protoInit (p : ProtoState) (userAgent : String)
    (ssr : Option (List (String × String)))
    (authToken : List (String × String)) : ProtoState :=
  logon (write p (.hello5x1 userAgent ssr) .loginObserver false)
    authToken true

/-- Embedding of `get version()`: `BOLT_PROTOCOL_V5_1`, that is 5.1. -/
def version : Nat × Nat := (5, 1)

/-- Embedding of `get supportsReAuth()`. -/
def supportsReAuth : Bool := true

/-- Last value bound to a key in a JavaScript object literal. -/
def lookupLastV (m : List (String × Nat)) (k : String) : Option Nat :=
  ((m.filter fun kv => kv.1 == k).getLast?).map Prod.snd

/-- JavaScript object spread `\x7b...a, ...b\x7d`: the keys of `a` in
order with values overridden by `b`, then the keys of `b` not already in
`a`. -/
def jsSpread (a b : List (String × Nat)) : List (String × Nat) :=
  (a.map fun kv => (kv.1, (lookupLastV b kv.1).getD kv.2))
    ++ b.filter fun kv => !(a.any fun kv2 => kv2.1 == kv.1)

/-- The mutable `state` object captured by the closures inside
`initialize`. -/
structure InitClosureState where
  metadata : Option (List (String × Nat))
deriving DecidableEq, Repr

/-- The HELLO observer's `onCompleted` closure: store the HELLO response
metadata into the shared state. -/
def helloOnCompleted (_s : InitClosureState)
    (meta : List (String × Nat)) : InitClosureState :=
  ⟨some meta⟩

/-- The `onComplete` wrapper `initialize` hands to `logon`: spread-merge
its nullable metadata argument with the stored HELLO metadata via object
spread `\x7b...metadata, ...state.metadata\x7d` (spreading null
contributes nothing). -/
def logonOnComplete (s : InitClosureState)
    (meta : Option (List (String × Nat))) : List (String × Nat) :=
  jsSpread (meta.getD []) (s.metadata.getD [])

/-- Modelled from the spec: `_onLoginCompleted(metadata, authToken,
onComplete)` (inherited from the v1 protocol object, not under src/)
finishes the login bookkeeping and invokes the provided callback with
the metadata argument it was given. -/
def onLoginCompleted (meta : Option (List (String × Nat)))
    (onComplete : Option (List (String × Nat)) → List (String × Nat)) :
    List (String × Nat) :=
  onComplete meta

/-- Completing the HELLO and then the LOGON response in FIFO order: the
list of invocations of the caller's `onComplete`, in order.  The LOGON
observer's completion handler (source line 95) is a nullary closure
`fun () => onLoginCompleted null authToken onComplete`: it discards the
LOGON response metadata and hard-codes null, so the wrapper receives
null and only the stored HELLO metadata reaches the caller. -/
def initComplete (helloMeta _logonMeta : List (String × Nat)) :
    List (List (String × Nat)) :=
  [onLoginCompleted none
    (logonOnComplete (helloOnCompleted ⟨none⟩ helloMeta))]

end Bolt5x1

/-- Spreading the empty object leaves the second object unchanged. -/
theorem jsSpread_nil (b : List (String × Nat)) :
    Bolt5x1.jsSpread [] b = b := by
  simp [Bolt5x1.jsSpread]

/-- C10 (amended): `initialize` on the Bolt v5.1 protocol object writes
exactly a HELLO (hello5x1) message with flush = false followed by a
LOGON message carrying the auth token with flush = true, both monitored
by login observers; the caller's `onComplete` is invoked exactly once,
with the HELLO response metadata only — the LOGON observer's completion
handler is a nullary closure that discards the LOGON response metadata
and passes null into the spread-merge; the protocol reports version 5.1
and supports re-authentication. -/
theorem bolt5x1_init :
    ∀ (p : Bolt5x1.ProtoState) (ua : String)
      (ssr : Option (List (String × String)))
      (tok : List (String × String)),
      (Bolt5x1.protoInit p ua ssr tok).writes
        = p.writes
          ++ [(.hello5x1 ua ssr, .loginObserver, false),
              (.logon tok, .loginObserver, true)]
      ∧ Bolt5x1.version = (5, 1)
      ∧ Bolt5x1.supportsReAuth = true
      ∧ (∀ hm lm : List (String × Nat),
          Bolt5x1.initComplete hm lm = [hm]
          ∧ (Bolt5x1.initComplete hm lm).length = 1) := by
  intro p ua ssr tok
  refine ⟨?_, rfl, rfl, ?_⟩
  · simp [Bolt5x1.protoInit, Bolt5x1.logon, Bolt5x1.write]
  · intro hm lm
    constructor
    · show [Bolt5x1.jsSpread [] hm] = [hm]
      rw [jsSpread_nil]
    · rfl

/-- C10 counterexample: at concrete HELLO metadata containing key h and
LOGON metadata containing key l, the caller's `onComplete` does not
receive the HELLO+LOGON spread-merge the original claim asserts — the
LOGON observer's completion handler (source line 95) discards the LOGON
response metadata, so only the HELLO metadata is delivered. -/
theorem bolt5x1_init_counterexample :
    Bolt5x1.initComplete [("h", 1)] [("l", 2)]
      ≠ [Bolt5x1.jsSpread [("l", 2)] [("h", 1)]] := by
  decide

/-! ## Request/response pipeline (modelled from the spec, §4.4) -/

namespace Pipeline

/-- Modelled from the spec: incoming response messages (§4.4, §6) — a
request's response is zero or more RECORDs followed by exactly one
terminal SUCCESS, FAILURE or IGNORED. -/
inductive Response where
  | record (v : Nat)
  | success (meta : Nat)
  | failure (err : Nat)
  | ignored
deriving DecidableEq, Repr

/-- A callback invocation on an observer (§3 Observer): observers are
identified by a natural number. -/
inductive Event where
  | onNext (obs v : Nat)
  | onCompleted (obs meta : Nat)
  | onError (obs err : Nat)
deriving DecidableEq, Repr

/-- Error value delivered when a request is answered IGNORED after an
earlier failure in the same batch (§4.4). -/
def ignoredErr : Nat := 0

/-- Error value delivered to every still-queued observer when the whole
connection fails (§4.4). -/
def connErr : Nat := 1

/-- Modelled from the spec: pipeline state (§4.4) — the FIFO queue of
pending observers, the buffered but untransmitted messages and the
transmitted messages, both in submission order. -/
structure PipeState where
  queue : List Nat
  pending : List Nat
  sent : List Nat
deriving DecidableEq, Repr

/-- Modelled from the spec: `write(message, observer, flush)` (§4.4) —
enqueue the observer, buffer the encoded message; when flush is set,
transmit everything buffered now. -/
def write (p : PipeState) (msg obs : Nat) (flush : Bool) : PipeState :=
  if flush then ⟨p.queue ++ [obs], [], p.sent ++ (p.pending ++ [msg])⟩
  else ⟨p.queue ++ [obs], p.pending ++ [msg], p.sent⟩

/-- One submitted request: its message, its observer and the flush flag
passed to `write`. -/
structure Request where
  msg : Nat
  obs : Nat
  flush : Bool
deriving DecidableEq, Repr

/-- Write a whole sequence of requests through the pipeline. -/
def writeAll (p : PipeState) (rs : List Request) : PipeState :=
  rs.foldl (fun q r => write q r.msg r.obs r.flush) p

/-- Modelled from the spec: `handleIncoming(message)` (§4.4) — a RECORD
is dispatched to the head observer, which stays queued; a terminal
response is dispatched to the head observer, which is dequeued; an
IGNORED terminal surfaces as an error callback. -/
def handleIncoming (q : List Nat) (r : Response) : List Nat × List Event :=
  match q with
  | [] => ([], [])
  | o :: rest =>
    match r with
    | .record v => (o :: rest, [.onNext o v])
    | .success m => (rest, [.onCompleted o m])
    | .failure e => (rest, [.onError o e])
    | .ignored => (rest, [.onError o ignoredErr])

/-- Dispatch a whole incoming response sequence, returning the remaining
queue and the callback invocations in order. -/
def dispatchAll : List Nat → List Response → List Nat × List Event
  | q, [] => (q, [])
  | q, r :: rs =>
    ((dispatchAll (handleIncoming q r).1 rs).1,
     (handleIncoming q r).2 ++ (dispatchAll (handleIncoming q r).1 rs).2)

/-- The terminal message closing one request's response. -/
inductive Terminal where
  | success (meta : Nat)
  | failure (err : Nat)
  | ignored
deriving DecidableEq, Repr

/-- The full response to one request: its RECORD payloads in order,
closed by one terminal message. -/
structure RespGroup where
  recs : List Nat
  term : Terminal
deriving DecidableEq, Repr

/-- View a terminal as the incoming message carrying it. -/
def Terminal.toResponse : Terminal → Response
  | .success m => .success m
  | .failure e => .failure e
  | .ignored => .ignored

/-- The incoming messages of one request's response. -/
def groupResponses (g : RespGroup) : List Response :=
  g.recs.map Response.record ++ [g.term.toResponse]

/-- Server responses arrive in submission order: the concatenation of
the per-request response groups (§4.4 FIFO correspondence). -/
def flattenGroups (gs : List RespGroup) : List Response :=
  (gs.map groupResponses).flatten

/-- The callback a terminal message triggers on observer `o`. -/
def terminalEvent (o : Nat) : Terminal → Event
  | .success m => .onCompleted o m
  | .failure e => .onError o e
  | .ignored => .onError o ignoredErr

/-- The callback sequence demanded by strict FIFO correspondence: each
observer, in submission order, receives its own records then its own
terminal. -/
def expectedEvents : List Nat → List RespGroup → List Event
  | o :: q, g :: gs =>
    g.recs.map (Event.onNext o)
      ++ (terminalEvent o g.term :: expectedEvents q gs)
  | _, _ => []

/-- RECORD messages are dispatched to the head observer without
dequeueing it. -/
theorem dispatch_records (recs : List Nat) (o : Nat) (q : List Nat)
    (rest : List Response) :
    dispatchAll (o :: q) (recs.map Response.record ++ rest)
      = ((dispatchAll (o :: q) rest).1,
         recs.map (Event.onNext o) ++ (dispatchAll (o :: q) rest).2) := by
  induction recs with
  | nil => simp
  | cons v vs ih => simp [dispatchAll, handleIncoming, ih]

/-- Core FIFO dispatch lemma: responses grouped per request are
dispatched to the observers in submission order, one dequeue per
terminal, and the observers beyond the answered ones stay queued. -/
theorem dispatch_groups :
    ∀ (gs : List RespGroup) (q : List Nat), gs.length ≤ q.length →
      dispatchAll q (flattenGroups gs)
        = (q.drop gs.length, expectedEvents q gs) := by
  intro gs
  induction gs with
  | nil => intro q _; simp [flattenGroups, dispatchAll, expectedEvents]
  | cons g gs ih =>
    intro q hq
    match q with
    | [] => simp at hq
    | o :: q' =>
      simp only [List.length_cons, Nat.succ_le_succ_iff] at hq
      simp only [flattenGroups, List.map_cons, List.flatten_cons,
        groupResponses, List.append_assoc, List.singleton_append]
      rw [dispatch_records]
      have hterm :
          dispatchAll (o :: q')
              (g.term.toResponse :: (gs.map groupResponses).flatten)
            = ((dispatchAll q' (gs.map groupResponses).flatten).1,
               terminalEvent o g.term
                 :: (dispatchAll q' (gs.map groupResponses).flatten).2) := by
        cases g.term <;>
          simp [dispatchAll, handleIncoming, Terminal.toResponse,
            terminalEvent]
      rw [hterm]
      have hih := ih q' hq
      simp only [flattenGroups] at hih
      rw [hih]
      simp [expectedEvents]

/-- The observer queue after a sequence of writes is the submitted
observers in submission order, independent of the flush flags. -/
theorem writeAll_queue :
    ∀ (rs : List Request) (p : PipeState),
      (writeAll p rs).queue = p.queue ++ rs.map (fun r => r.obs) := by
  intro rs
  induction rs with
  | nil => intro p; simp [writeAll]
  | cons r rs ih =>
    intro p
    simp only [writeAll, List.foldl_cons, List.map_cons]
    rw [show List.foldl (fun q r => write q r.msg r.obs r.flush)
        (write p r.msg r.obs r.flush) rs
      = writeAll (write p r.msg r.obs r.flush) rs from rfl]
    rw [ih]
    cases hf : r.flush <;> simp [write, hf]

/-- Transmitted and still-buffered messages together are always the
submitted messages in submission order: flush grouping never reorders
transmission. -/
theorem writeAll_transmit :
    ∀ (rs : List Request) (p : PipeState),
      (writeAll p rs).sent ++ (writeAll p rs).pending
        = p.sent ++ p.pending ++ rs.map (fun r => r.msg) := by
  intro rs
  induction rs with
  | nil => intro p; simp [writeAll]
  | cons r rs ih =>
    intro p
    simp only [writeAll, List.foldl_cons, List.map_cons]
    rw [show List.foldl (fun q r => write q r.msg r.obs r.flush)
        (write p r.msg r.obs r.flush) rs
      = writeAll (write p r.msg r.obs r.flush) rs from rfl]
    rw [ih]
    cases hf : r.flush <;> simp [write, hf]

end Pipeline

/-- C1: for any sequence of requests written through the pipeline with
any interleaving of flush flags, the observer queue holds the observers
in exactly submission order and the messages are transmitted in exactly
submission order (flush only controls batching); dispatching the
per-request response groups invokes each observer's callbacks in
submission order — the head observer stays in place across its RECORDs
and exactly one observer is dequeued per terminal. -/
theorem fifo_dispatch_order :
    ∀ (rs : List Pipeline.Request) (gs : List Pipeline.RespGroup),
      (Pipeline.writeAll ⟨[], [], []⟩ rs).queue = rs.map (fun r => r.obs)
      ∧ (Pipeline.writeAll ⟨[], [], []⟩ rs).sent
          ++ (Pipeline.writeAll ⟨[], [], []⟩ rs).pending
          = rs.map (fun r => r.msg)
      ∧ (gs.length = rs.length →
          Pipeline.dispatchAll (rs.map (fun r => r.obs))
              (Pipeline.flattenGroups gs)
            = ([], Pipeline.expectedEvents (rs.map (fun r => r.obs)) gs)) := by
  intro rs gs
  refine ⟨by simpa using Pipeline.writeAll_queue rs ⟨[], [], []⟩,
    by simpa using Pipeline.writeAll_transmit rs ⟨[], [], []⟩, ?_⟩
  intro hlen
  have hle : gs.length ≤ (rs.map (fun r => r.obs)).length := by
    simp [hlen]
  rw [Pipeline.dispatch_groups gs _ hle]
  rw [List.drop_eq_nil_of_le (by simp [hlen])]

/-- Closed witness for `fifo_dispatch_order`: two pipelined requests
with mixed flush flags, a two-record success and a failure, dispatched
strictly in submission order. -/
theorem fifo_dispatch_order_witness :
    Pipeline.dispatchAll [10, 11]
        (Pipeline.flattenGroups
          [⟨[1, 2], .success 7⟩, ⟨[], .failure 9⟩])
      = ([], [.onNext 10 1, .onNext 10 2, .onCompleted 10 7,
              .onError 11 9]) :=
  (fifo_dispatch_order
    [⟨100, 10, false⟩, ⟨101, 11, true⟩]
    [⟨[1, 2], .success 7⟩, ⟨[], .failure 9⟩]).2.2 rfl

namespace Pipeline

/-- The records delivered to observer `o`, in delivery order. -/
def recordsFor (evs : List Event) (o : Nat) : List Nat :=
  evs.filterMap fun e =>
    match e with
    | .onNext o' v => if o' = o then some v else none
    | _ => none

/-- `recordsFor` distributes over concatenation. -/
theorem recordsFor_append (xs ys : List Event) (o : Nat) :
    recordsFor (xs ++ ys) o = recordsFor xs o ++ recordsFor ys o := by
  simp [recordsFor]

/-- The head observer's own records project back out of its onNext
events. -/
theorem recordsFor_onNext_self (rs : List Nat) (o : Nat) :
    recordsFor (rs.map (Event.onNext o)) o = rs := by
  induction rs with
  | nil => rfl
  | cons v vs ih => simp [recordsFor] at ih ⊢; exact ih

/-- Another observer's onNext events project to nothing. -/
theorem recordsFor_onNext_ne (rs : List Nat) (o o' : Nat) (h : o ≠ o') :
    recordsFor (rs.map (Event.onNext o)) o' = [] := by
  induction rs with
  | nil => rfl
  | cons v vs _ => simp [recordsFor, h]

/-- A terminal event carries no record. -/
theorem recordsFor_terminal (o o' : Nat) (t : Terminal) :
    recordsFor [terminalEvent o t] o' = [] := by
  cases t <;> rfl

/-- An observer that is not queued receives no record at all. -/
theorem recordsFor_not_mem :
    ∀ (q : List Nat) (gs : List RespGroup) (o : Nat), o ∉ q →
      recordsFor (expectedEvents q gs) o = [] := by
  intro q
  induction q with
  | nil => intro gs o _; cases gs <;> rfl
  | cons x q ih =>
    intro gs o ho
    match gs with
    | [] => rfl
    | g :: gs =>
      simp only [expectedEvents]
      rw [show (terminalEvent x g.term :: expectedEvents q gs)
          = [terminalEvent x g.term] ++ expectedEvents q gs from rfl]
      rw [recordsFor_append, recordsFor_append]
      rw [recordsFor_onNext_ne _ _ _ (by simp at ho; exact fun h => ho.1 h.symm)]
      rw [recordsFor_terminal]
      rw [ih gs o (by simp at ho; exact ho.2)]
      rfl

/-- Each queued observer receives exactly its own request's records, in
that request's own internal order, whatever the rest of the batch
carries. -/
theorem recordsFor_expected :
    ∀ (q : List Nat) (gs : List RespGroup), q.Nodup →
      gs.length = q.length →
      ∀ pr ∈ q.zip gs,
        recordsFor (expectedEvents q gs) pr.1 = pr.2.recs := by
  intro q
  induction q with
  | nil => intro gs _ _ pr hpr; simp at hpr
  | cons x q ih =>
    intro gs hnd hlen pr hpr
    match gs with
    | [] => simp at hlen
    | g :: gs =>
      simp only [List.length_cons, Nat.succ_inj] at hlen
      simp only [List.nodup_cons] at hnd
      simp only [expectedEvents]
      rw [show (terminalEvent x g.term :: expectedEvents q gs)
          = [terminalEvent x g.term] ++ expectedEvents q gs from rfl]
      rw [recordsFor_append, recordsFor_append]
      rcases List.mem_cons.mp (by simpa [List.zip] using hpr) with h | h
      · subst h
        rw [recordsFor_onNext_self, recordsFor_terminal,
          recordsFor_not_mem q gs x hnd.1]
        simp
      · have hx : pr.1 ∈ q := by
          obtain ⟨a, b⟩ := pr
          exact (List.of_mem_zip h).1
        have hne : x ≠ pr.1 := fun hxx => hnd.1 (hxx ▸ hx)
        rw [recordsFor_onNext_ne _ _ _ hne, recordsFor_terminal]
        rw [ih gs hnd.2 hlen pr h]
        rfl

end Pipeline

/-- C5: with distinct observers submitted for requests answered in FIFO
order, consuming the results in any order whatsoever — any list of
(observer, response-group) pairs drawn from the submission, including
the reverse of submission order — yields each result's own records in
that result's own internal order, independent of the global submission
order. -/
theorem out_of_order_consumption :
    ∀ (q : List Nat) (gs : List Pipeline.RespGroup)
      (order : List (Nat × Pipeline.RespGroup)),
      q.Nodup → gs.length = q.length →
      (∀ pr ∈ order, pr ∈ q.zip gs) →
      order.map
          (fun pr =>
            Pipeline.recordsFor
              (Pipeline.dispatchAll q (Pipeline.flattenGroups gs)).2 pr.1)
        = order.map (fun pr => pr.2.recs) := by
  intro q gs order hnd hlen horder
  have hdisp := Pipeline.dispatch_groups gs q (le_of_eq hlen)
  rw [hdisp]
  exact List.map_congr_left fun pr hpr =>
    Pipeline.recordsFor_expected q gs hnd hlen pr (horder pr hpr)

/-- Closed witness for `out_of_order_consumption`: three pipelined runs
consumed in reverse submission order each yield their own records. -/
theorem out_of_order_consumption_witness :
    [(12, (⟨[31, 32], .success 0⟩ : Pipeline.RespGroup)),
     (11, ⟨[21], .success 0⟩), (10, ⟨[1, 2, 3], .success 0⟩)].map
        (fun pr =>
          Pipeline.recordsFor
            (Pipeline.dispatchAll [10, 11, 12]
              (Pipeline.flattenGroups
                [⟨[1, 2, 3], .success 0⟩, ⟨[21], .success 0⟩,
                 ⟨[31, 32], .success 0⟩])).2 pr.1)
      = [[31, 32], [21], [1, 2, 3]] :=
  out_of_order_consumption [10, 11, 12]
    [⟨[1, 2, 3], .success 0⟩, ⟨[21], .success 0⟩, ⟨[31, 32], .success 0⟩]
    [(12, ⟨[31, 32], .success 0⟩), (11, ⟨[21], .success 0⟩),
     (10, ⟨[1, 2, 3], .success 0⟩)]
    (by decide) rfl (by decide)

namespace Pipeline

/-- Test whether an event is a terminal callback (onCompleted or
onError) on observer `o`. -/
def isTerminalFor (o : Nat) : Event → Bool
  | .onCompleted o' _ => o' == o
  | .onError o' _ => o' == o
  | .onNext _ _ => false

/-- Run a connection to its end: dispatch the per-request response
groups; when the connection then fails, every still-queued observer is
failed with the connection error, in FIFO order (§4.4). -/
def connRun (q : List Nat) (gs : List RespGroup) (connFail : Bool) :
    List Event :=
  (dispatchAll q (flattenGroups gs)).2
    ++ (if connFail then
          (dispatchAll q (flattenGroups gs)).1.map
            (fun o => Event.onError o connErr)
        else [])

/-- Terminal callbacks in the FIFO event sequence: one per answered
observer. -/
theorem countTerminal_expected :
    ∀ (gs : List RespGroup) (q : List Nat) (o : Nat),
      gs.length ≤ q.length →
      (expectedEvents q gs).countP (isTerminalFor o)
        = (q.take gs.length).countP (fun x => x == o) := by
  intro gs
  induction gs with
  | nil => intro q o _; cases q <;> rfl
  | cons g gs ih =>
    intro q o hq
    match q with
    | [] => simp at hq
    | x :: q' =>
      simp only [List.length_cons, Nat.succ_le_succ_iff] at hq
      simp only [expectedEvents, List.take, List.countP_cons]
      rw [List.countP_append]
      have hrec : (g.recs.map (Event.onNext x)).countP (isTerminalFor o)
          = 0 := by
        induction g.recs with
        | nil => rfl
        | cons v vs ihv => simp [List.countP_cons, isTerminalFor, ihv]
      rw [hrec, List.countP_cons]
      have hterm : isTerminalFor o (terminalEvent x g.term)
          = (x == o) := by
        cases g.term <;> rfl
      rw [hterm, ih q' o hq]
      omega

end Pipeline

/-- C6: every enqueued observer receives exactly one terminal callback —
whether its request succeeds, fails, is ignored after an earlier
same-batch failure, or the whole connection fails before its response
arrives (in which case the pipeline fails every still-queued observer);
never zero and never two. -/
theorem observer_single_terminal :
    ∀ (q : List Nat) (gs : List Pipeline.RespGroup) (connFail : Bool)
      (o : Nat),
      (if connFail then gs.length ≤ q.length else gs.length = q.length) →
      (Pipeline.connRun q gs connFail).countP (Pipeline.isTerminalFor o)
        = q.countP (fun x => x == o) := by
  intro q gs connFail o hlen
  cases connFail with
  | false =>
    rw [if_neg Bool.false_ne_true] at hlen
    have hd := Pipeline.dispatch_groups gs q (le_of_eq hlen)
    simp only [Pipeline.connRun, hd, Bool.false_eq_true, if_false,
      List.append_nil]
    rw [Pipeline.countTerminal_expected gs q o (le_of_eq hlen)]
    rw [List.take_of_length_le (le_of_eq hlen.symm)]
  | true =>
    rw [if_pos rfl] at hlen
    have hd := Pipeline.dispatch_groups gs q hlen
    simp only [Pipeline.connRun, hd, if_pos rfl, if_true]
    rw [List.countP_append]
    rw [Pipeline.countTerminal_expected gs q o hlen]
    have hdrop : ((q.drop gs.length).map
          (fun x => Pipeline.Event.onError x Pipeline.connErr)).countP
          (Pipeline.isTerminalFor o)
        = (q.drop gs.length).countP (fun x => x == o) := by
      induction q.drop gs.length with
      | nil => rfl
      | cons x xs ihx =>
        simp [List.countP_cons, Pipeline.isTerminalFor, ihx]
    rw [hdrop]
    rw [← List.countP_append, List.take_append_drop]

/-- Closed witness for `observer_single_terminal`: three queued
observers, one answered by FAILURE, then the connection fails; the
middle observer gets exactly one terminal callback. -/
theorem observer_single_terminal_witness :
    (Pipeline.connRun [5, 6, 7] [⟨[1], .failure 3⟩] true).countP
        (Pipeline.isTerminalFor 6) = 1 :=
  observer_single_terminal [5, 6, 7] [⟨[1], .failure 3⟩] true 6
    (by decide)

/-! ## Wire codec (modelled from the spec, §4.1) -/

namespace Codec

/-- Big-endian fixed-width encoding of a natural into `k` bytes. -/
def beBytes : Nat → Nat → List Nat
  | 0, _ => []
  | k + 1, n => beBytes k (n / 256) ++ [n % 256]

/-- Numeric value of a big-endian byte list. -/
def beVal (bs : List Nat) : Nat :=
  bs.foldl (fun a b => a * 256 + b) 0

theorem beBytes_length (k n : Nat) : (beBytes k n).length = k := by
  induction k generalizing n with
  | zero => rfl
  | succ k ih => simp [beBytes, ih]

theorem beVal_append_one (xs : List Nat) (b : Nat) :
    beVal (xs ++ [b]) = beVal xs * 256 + b := by
  simp [beVal, List.foldl_append]

theorem beVal_beBytes (k n : Nat) (h : n < 256 ^ k) :
    beVal (beBytes k n) = n := by
  induction k generalizing n with
  | zero =>
    simp [beBytes, beVal]
    omega
  | succ k ih =>
    rw [beBytes, beVal_append_one]
    rw [pow_succ] at h
    rw [ih (n / 256) (by omega)]
    omega

/-- Read exactly `k` bytes off the front of a byte list. -/
def readN (k : Nat) (bs : List Nat) : Option (List Nat × List Nat) :=
  if k ≤ bs.length then some (bs.take k, bs.drop k) else none

theorem readN_exact (xs r : List Nat) :
    readN xs.length (xs ++ r) = some (xs, r) := by
  simp [readN]

theorem readN_of_length (k : Nat) (xs r : List Nat) (h : xs.length = k) :
    readN k (xs ++ r) = some (xs, r) := by
  subst h; exact readN_exact xs r

/-- Two's-complement encoding of an integer into `k` bytes. -/
def twosEnc (k : Nat) (n : Int) : List Nat :=
  beBytes k (n % (2 ^ (8 * k))).toNat

/-- Two's-complement reading of a `k`-byte big-endian value. -/
def twosDec (k : Nat) (bs : List Nat) : Int :=
  if beVal bs < 2 ^ (8 * k - 1) then (beVal bs : Int)
  else (beVal bs : Int) - 2 ^ (8 * k)

theorem twosEnc_length (k : Nat) (n : Int) : (twosEnc k n).length = k :=
  beBytes_length _ _

theorem twos_roundtrip (k : Nat) (hk : 0 < k) (n : Int)
    (h1 : -(2 ^ (8 * k - 1)) ≤ n) (h2 : n < 2 ^ (8 * k - 1)) :
    twosDec k (twosEnc k n) = n := by
  have hw : 8 * k - 1 + 1 = 8 * k := by omega
  have hpow : (2 : Int) ^ (8 * k) = 2 ^ (8 * k - 1) * 2 := by
    rw [← pow_succ, hw]
  have hpos : (0 : Int) < 2 ^ (8 * k) := by positivity
  have hmod0 : (0 : Int) ≤ n % 2 ^ (8 * k) := Int.emod_nonneg n (by omega)
  have hmodlt : n % 2 ^ (8 * k) < 2 ^ (8 * k) := Int.emod_lt_of_pos n hpos
  have h256 : (256 : Nat) ^ k = 2 ^ (8 * k) := by
    rw [show (256 : Nat) = 2 ^ 8 from rfl, ← pow_mul]
  have hvalnat : ((n % 2 ^ (8 * k)).toNat : Int) = n % 2 ^ (8 * k) :=
    Int.toNat_of_nonneg hmod0
  have hbound : (n % 2 ^ (8 * k)).toNat < 256 ^ k := by
    rw [h256]
    have : ((n % 2 ^ (8 * k)).toNat : Int) < ((2 ^ (8 * k) : Nat) : Int) := by
      rw [hvalnat]; push_cast; exact hmodlt
    exact_mod_cast this
  unfold twosDec twosEnc
  rw [beVal_beBytes _ _ hbound]
  rcases le_or_lt 0 n with hn | hn
  · have hsame : n % 2 ^ (8 * k) = n := Int.emod_eq_of_lt hn (by omega)
    rw [hsame] at hvalnat ⊢
    have hlt : (n.toNat : Int) < ((2 ^ (8 * k - 1) : Nat) : Int) := by
      rw [hvalnat]; push_cast; omega
    rw [if_pos (by exact_mod_cast hlt)]
    exact hvalnat
  · have step : (n + 2 ^ (8 * k) * 1) % 2 ^ (8 * k) = n % 2 ^ (8 * k) :=
      Int.add_mul_emod_self_left n (2 ^ (8 * k)) 1
    have hshift : n % 2 ^ (8 * k) = n + 2 ^ (8 * k) := by
      rw [← step, mul_one]
      exact Int.emod_eq_of_lt (by omega) (by omega)
    rw [hshift] at hvalnat ⊢
    have hge : ¬ ((n + 2 ^ (8 * k)).toNat : Int)
        < ((2 ^ (8 * k - 1) : Nat) : Int) := by
      rw [hvalnat]; push_cast; omega
    rw [if_neg (by exact_mod_cast hge)]
    rw [hvalnat]
    ring

/-- Modelled from the spec: the wire value grammar (§4.1) — null,
boolean, 64-bit integer, 64-bit float (as its bit pattern), UTF-8
string (as its byte content), byte array, list, string-keyed map and
tagged structure. -/
inductive Value where
  | nullV
  | boolV (b : Bool)
  | intV (n : Int)
  | floatV (bits : Nat)
  | strV (s : List Nat)
  | bytesV (bs : List Nat)
  | listV (vs : List Value)
  | mapV (entries : List (List Nat × Value))
  | structV (sig : Nat) (fields : List Value)

/-- Size-classed header for strings, lists and maps: the smallest
encoding that fits — tiny (length in the marker nibble), 8-, 16- or
32-bit length. -/
def lenHeader (tinyBase m8 m16 m32 : Nat) (len : Nat) : List Nat :=
  if len < 16 then [tinyBase + len]
  else if len < 256 then [m8, len]
  else if len < 65536 then m16 :: beBytes 2 len
  else m32 :: beBytes 4 len

/-- Size-classed header for byte arrays (no tiny class). -/
def bytesHeader (len : Nat) : List Nat :=
  if len < 256 then [0xCC, len]
  else if len < 65536 then 0xCD :: beBytes 2 len
  else 0xCE :: beBytes 4 len

/-- Encoding of a string: size-classed header then the byte content. -/
def encodeStr (s : List Nat) : List Nat :=
  lenHeader 0x80 0xD0 0xD1 0xD2 s.length ++ s

/-- Integer encoding: the smallest of the tiny, 8-, 16-, 32- and 64-bit
classes that fits. -/
def encInt (n : Int) : List Nat :=
  if 0 ≤ n ∧ n < 128 then [n.toNat]
  else if -16 ≤ n ∧ n < 0 then [(n + 256).toNat]
  else if -128 ≤ n ∧ n < 128 then 0xC8 :: twosEnc 1 n
  else if -32768 ≤ n ∧ n < 32768 then 0xC9 :: twosEnc 2 n
  else if -2147483648 ≤ n ∧ n < 2147483648 then 0xCA :: twosEnc 4 n
  else 0xCB :: twosEnc 8 n

mutual

/-- Modelled from the spec: `encode` over the wire grammar (§4.1), with
deterministic smallest-fitting size-class selection. -/
def encodeV : Value → List Nat
  | .nullV => [0xC0]
  | .boolV false => [0xC2]
  | .boolV true => [0xC3]
  | .intV n => encInt n
  | .floatV bits => 0xC1 :: beBytes 8 bits
  | .strV s => encodeStr s
  | .bytesV bs => bytesHeader bs.length ++ bs
  | .listV vs => lenHeader 0x90 0xD4 0xD5 0xD6 vs.length ++ encodeList vs
  | .mapV es => lenHeader 0xA0 0xD8 0xD9 0xDA es.length ++ encodeEntries es
  | .structV sig fields =>
    (0xB0 + fields.length) :: sig :: encodeList fields

/-- Concatenated encodings of a value sequence. -/
def encodeList : List Value → List Nat
  | [] => []
  | v :: vs => encodeV v ++ encodeList vs

/-- Concatenated encodings of map entries: each key as a string, then
its value. -/
def encodeEntries : List (List Nat × Value) → List Nat
  | [] => []
  | (k, v) :: es => encodeStr k ++ encodeV v ++ encodeEntries es

end

mutual

/-- A value lies inside the wire grammar's representable ranges: 64-bit
integers, 64-bit float patterns, byte contents below 256, lengths below
2^32 and structures with at most 15 fields and a 7-bit signature. -/
def sizeOk : Value → Bool
  | .nullV => true
  | .boolV _ => true
  | .intV n =>
    decide (-9223372036854775808 ≤ n) && decide (n < 9223372036854775808)
  | .floatV bits => decide (bits < 18446744073709551616)
  | .strV s => decide (s.length < 4294967296) && s.all (· < 256)
  | .bytesV bs => decide (bs.length < 4294967296) && bs.all (· < 256)
  | .listV vs => decide (vs.length < 4294967296) && sizeOkList vs
  | .mapV es => decide (es.length < 4294967296) && sizeOkEntries es
  | .structV sig fields =>
    decide (sig < 128) && decide (fields.length < 16) && sizeOkList fields

def sizeOkList : List Value → Bool
  | [] => true
  | v :: vs => sizeOk v && sizeOkList vs

def sizeOkEntries : List (List Nat × Value) → Bool
  | [] => true
  | (k, v) :: es =>
    decide (k.length < 4294967296) && k.all (· < 256) && sizeOk v
      && sizeOkEntries es

end

mutual

/-- Nesting depth of a value (1 for leaves). -/
def depth : Value → Nat
  | .listV vs => depthList vs + 1
  | .mapV es => depthEntries es + 1
  | .structV _ fields => depthList fields + 1
  | _ => 1

def depthList : List Value → Nat
  | [] => 0
  | v :: vs => max (depth v) (depthList vs)

def depthEntries : List (List Nat × Value) → Nat
  | [] => 0
  | (_, v) :: es => max (depth v) (depthEntries es)

end

/-- Decode one string (size-classed header then content) off the front
of a byte list. -/
def decodeStr (bs : List Nat) : Option (List Nat × List Nat) :=
  match bs with
  | [] => none
  | b :: rest =>
    if 0x80 ≤ b ∧ b ≤ 0x8F then readN (b - 0x80) rest
    else if b = 0xD0 then
      match readN 1 rest with
      | some (lb, r) => readN (beVal lb) r
      | none => none
    else if b = 0xD1 then
      match readN 2 rest with
      | some (lb, r) => readN (beVal lb) r
      | none => none
    else if b = 0xD2 then
      match readN 4 rest with
      | some (lb, r) => readN (beVal lb) r
      | none => none
    else none

mutual

/-- Modelled from the spec: `decode` over the wire grammar (§4.1),
fuelled by the maximum nesting depth; returns the decoded value and the
unconsumed remainder, or `none` on malformed input. -/
def decodeV : Nat → List Nat → Option (Value × List Nat)
  | 0, _ => none
  | _ + 1, [] => none
  | fuel + 1, b :: rest =>
    if b = 0xC0 then some (.nullV, rest)
    else if b = 0xC1 then
      (readN 8 rest).map fun p => (Value.floatV (beVal p.1), p.2)
    else if b = 0xC2 then some (.boolV false, rest)
    else if b = 0xC3 then some (.boolV true, rest)
    else if b < 0x80 then some (.intV (b : Int), rest)
    else if 0xF0 ≤ b ∧ b ≤ 0xFF then some (.intV ((b : Int) - 256), rest)
    else if b = 0xC8 then
      (readN 1 rest).map fun p => (Value.intV (twosDec 1 p.1), p.2)
    else if b = 0xC9 then
      (readN 2 rest).map fun p => (Value.intV (twosDec 2 p.1), p.2)
    else if b = 0xCA then
      (readN 4 rest).map fun p => (Value.intV (twosDec 4 p.1), p.2)
    else if b = 0xCB then
      (readN 8 rest).map fun p => (Value.intV (twosDec 8 p.1), p.2)
    else if (0x80 ≤ b ∧ b ≤ 0x8F) ∨ b = 0xD0 ∨ b = 0xD1 ∨ b = 0xD2 then
      (decodeStr (b :: rest)).map fun p => (Value.strV p.1, p.2)
    else if b = 0xCC then
      (readN 1 rest).bind fun p =>
        (readN (beVal p.1) p.2).map fun q => (Value.bytesV q.1, q.2)
    else if b = 0xCD then
      (readN 2 rest).bind fun p =>
        (readN (beVal p.1) p.2).map fun q => (Value.bytesV q.1, q.2)
    else if b = 0xCE then
      (readN 4 rest).bind fun p =>
        (readN (beVal p.1) p.2).map fun q => (Value.bytesV q.1, q.2)
    else if 0x90 ≤ b ∧ b ≤ 0x9F then
      (decodeItems fuel (b - 0x90) rest).map fun p =>
        (Value.listV p.1, p.2)
    else if b = 0xD4 then
      (readN 1 rest).bind fun p =>
        (decodeItems fuel (beVal p.1) p.2).map fun q =>
          (Value.listV q.1, q.2)
    else if b = 0xD5 then
      (readN 2 rest).bind fun p =>
        (decodeItems fuel (beVal p.1) p.2).map fun q =>
          (Value.listV q.1, q.2)
    else if b = 0xD6 then
      (readN 4 rest).bind fun p =>
        (decodeItems fuel (beVal p.1) p.2).map fun q =>
          (Value.listV q.1, q.2)
    else if 0xA0 ≤ b ∧ b ≤ 0xAF then
      (decodeEntries fuel (b - 0xA0) rest).map fun p =>
        (Value.mapV p.1, p.2)
    else if b = 0xD8 then
      (readN 1 rest).bind fun p =>
        (decodeEntries fuel (beVal p.1) p.2).map fun q =>
          (Value.mapV q.1, q.2)
    else if b = 0xD9 then
      (readN 2 rest).bind fun p =>
        (decodeEntries fuel (beVal p.1) p.2).map fun q =>
          (Value.mapV q.1, q.2)
    else if b = 0xDA then
      (readN 4 rest).bind fun p =>
        (decodeEntries fuel (beVal p.1) p.2).map fun q =>
          (Value.mapV q.1, q.2)
    else if 0xB0 ≤ b ∧ b ≤ 0xBF then
      (readN 1 rest).bind fun p =>
        (decodeItems fuel (b - 0xB0) p.2).map fun q =>
          (Value.structV (p.1.headD 0) q.1, q.2)
    else none
termination_by fuel _ => (fuel, 0)

/-- Decode `count` consecutive values. -/
def decodeItems : Nat → Nat → List Nat → Option (List Value × List Nat)
  | _, 0, bs => some ([], bs)
  | fuel, count + 1, bs =>
    (decodeV fuel bs).bind fun p =>
      (decodeItems fuel count p.2).map fun q => (p.1 :: q.1, q.2)
termination_by fuel count _ => (fuel, count + 1)

/-- Decode `count` consecutive map entries (string key then value). -/
def decodeEntries :
    Nat → Nat → List Nat → Option (List (List Nat × Value) × List Nat)
  | _, 0, bs => some ([], bs)
  | fuel, count + 1, bs =>
    (decodeStr bs).bind fun p =>
      (decodeV fuel p.2).bind fun q =>
        (decodeEntries fuel count q.2).map fun w =>
          ((p.1, q.1) :: w.1, w.2)
termination_by fuel count _ => (fuel, count + 1)

end

theorem beVal_one (b : Nat) : beVal [b] = b := by
  simp [beVal]

theorem decodeStr_encodeStr (s r : List Nat) (h : s.length < 4294967296) :
    decodeStr (encodeStr s ++ r) = some (s, r) := by
  unfold encodeStr lenHeader
  by_cases h16 : s.length < 16
  · rw [if_pos h16]
    simp only [List.cons_append, List.nil_append, List.append_assoc,
      decodeStr]
    rw [if_pos (by omega)]
    rw [show 0x80 + s.length - 0x80 = s.length from by omega]
    exact readN_exact s r
  · rw [if_neg h16]
    by_cases h256 : s.length < 256
    · rw [if_pos h256]
      simp only [List.cons_append, List.nil_append, List.append_assoc,
        decodeStr]
      rw [if_neg (by omega)]
      norm_num
      rw [show (s.length :: (s ++ r)) = [s.length] ++ (s ++ r) from rfl,
        readN_of_length 1 [s.length] (s ++ r) rfl]
      show readN (beVal [s.length]) (s ++ r) = some (s, r)
      rw [beVal_one]
      exact readN_exact s r
    · rw [if_neg h256]
      by_cases h64 : s.length < 65536
      · rw [if_pos h64]
        simp only [List.cons_append, List.nil_append, List.append_assoc,
          decodeStr]
        rw [if_neg (by omega)]
        norm_num
        rw [readN_of_length 2 (beBytes 2 s.length) (s ++ r)
          (beBytes_length 2 _)]
        show readN (beVal (beBytes 2 s.length)) (s ++ r) = some (s, r)
        rw [beVal_beBytes 2 s.length (by norm_num; omega)]
        exact readN_exact s r
      · rw [if_neg h64]
        simp only [List.cons_append, List.nil_append, List.append_assoc,
          decodeStr]
        rw [if_neg (by omega)]
        norm_num
        rw [readN_of_length 4 (beBytes 4 s.length) (s ++ r)
          (beBytes_length 4 _)]
        show readN (beVal (beBytes 4 s.length)) (s ++ r) = some (s, r)
        rw [beVal_beBytes 4 s.length (by norm_num; omega)]
        exact readN_exact s r

theorem decodeV_null (fuel : Nat) (rest : List Nat) :
    decodeV (fuel + 1) (0xC0 :: rest) = some (.nullV, rest) := by
  simp [decodeV]

theorem decodeV_false (fuel : Nat) (rest : List Nat) :
    decodeV (fuel + 1) (0xC2 :: rest) = some (.boolV false, rest) := by
  simp [decodeV]

theorem decodeV_true (fuel : Nat) (rest : List Nat) :
    decodeV (fuel + 1) (0xC3 :: rest) = some (.boolV true, rest) := by
  simp [decodeV]

theorem decodeV_float (fuel : Nat) (bs r : List Nat) (h : bs.length = 8) :
    decodeV (fuel + 1) (0xC1 :: (bs ++ r))
      = some (.floatV (beVal bs), r) := by
  simp only [decodeV]
  norm_num
  rw [readN_of_length 8 bs r h]
  exact ⟨bs, rfl, rfl⟩

theorem decodeV_tinyPos (fuel b : Nat) (rest : List Nat) (h : b < 128) :
    decodeV (fuel + 1) (b :: rest) = some (.intV (b : Int), rest) := by
  simp only [decodeV]
  rw [if_neg (by omega), if_neg (by intro hcon; omega),
    if_neg (by omega), if_neg (by intro hcon; omega), if_pos h]

theorem decodeV_tinyNeg (fuel b : Nat) (rest : List Nat)
    (h1 : 0xF0 ≤ b) (h2 : b ≤ 0xFF) :
    decodeV (fuel + 1) (b :: rest)
      = some (.intV ((b : Int) - 256), rest) := by
  simp only [decodeV]
  rw [if_neg (by omega), if_neg (by intro hcon; omega),
    if_neg (by omega), if_neg (by intro hcon; omega),
    if_neg (by omega), if_pos ⟨h1, h2⟩]

theorem decodeV_int8 (fuel : Nat) (bs r : List Nat) (h : bs.length = 1) :
    decodeV (fuel + 1) (0xC8 :: (bs ++ r))
      = some (.intV (twosDec 1 bs), r) := by
  simp only [decodeV]
  norm_num
  rw [readN_of_length 1 bs r h]
  exact ⟨bs, rfl, rfl⟩

theorem decodeV_int16 (fuel : Nat) (bs r : List Nat) (h : bs.length = 2) :
    decodeV (fuel + 1) (0xC9 :: (bs ++ r))
      = some (.intV (twosDec 2 bs), r) := by
  simp only [decodeV]
  norm_num
  rw [readN_of_length 2 bs r h]
  exact ⟨bs, rfl, rfl⟩

theorem decodeV_int32 (fuel : Nat) (bs r : List Nat) (h : bs.length = 4) :
    decodeV (fuel + 1) (0xCA :: (bs ++ r))
      = some (.intV (twosDec 4 bs), r) := by
  simp only [decodeV]
  norm_num
  rw [readN_of_length 4 bs r h]
  exact ⟨bs, rfl, rfl⟩

theorem decodeV_int64 (fuel : Nat) (bs r : List Nat) (h : bs.length = 8) :
    decodeV (fuel + 1) (0xCB :: (bs ++ r))
      = some (.intV (twosDec 8 bs), r) := by
  simp only [decodeV]
  norm_num
  rw [readN_of_length 8 bs r h]
  exact ⟨bs, rfl, rfl⟩

theorem decodeV_strMarker (fuel b : Nat) (rest : List Nat)
    (h : (0x80 ≤ b ∧ b ≤ 0x8F) ∨ b = 0xD0 ∨ b = 0xD1 ∨ b = 0xD2) :
    decodeV (fuel + 1) (b :: rest)
      = (decodeStr (b :: rest)).map (fun p => (Value.strV p.1, p.2)) := by
  simp only [decodeV]
  rw [if_neg (by omega), if_neg (by intro hcon; omega),
    if_neg (by omega), if_neg (by intro hcon; omega),
    if_neg (by omega), if_neg (by intro hcon; omega),
    if_neg (by omega), if_neg (by intro hcon; omega),
    if_neg (by omega), if_neg (by intro hcon; omega), if_pos h]

theorem decodeV_str (fuel : Nat) (s r : List Nat)
    (h : s.length < 4294967296) :
    decodeV (fuel + 1) (encodeStr s ++ r) = some (.strV s, r) := by
  obtain ⟨b, t, hbt, hb⟩ :
      ∃ b t, encodeStr s ++ r = b :: t
        ∧ ((0x80 ≤ b ∧ b ≤ 0x8F) ∨ b = 0xD0 ∨ b = 0xD1 ∨ b = 0xD2) := by
    unfold encodeStr lenHeader
    by_cases h16 : s.length < 16
    · rw [if_pos h16]
      exact ⟨0x80 + s.length, s ++ r, by simp,
        Or.inl ⟨by omega, by omega⟩⟩
    · rw [if_neg h16]
      by_cases h256 : s.length < 256
      · rw [if_pos h256]
        exact ⟨0xD0, s.length :: (s ++ r), by simp, by omega⟩
      · rw [if_neg h256]
        by_cases h64 : s.length < 65536
        · rw [if_pos h64]
          exact ⟨0xD1, beBytes 2 s.length ++ (s ++ r), by simp, by omega⟩
        · rw [if_neg h64]
          exact ⟨0xD2, beBytes 4 s.length ++ (s ++ r), by simp, by omega⟩
  rw [hbt, decodeV_strMarker fuel b t hb, ← hbt,
    decodeStr_encodeStr s r h]
  rfl

theorem decodeV_bytesV (fuel : Nat) (bs r : List Nat)
    (h : bs.length < 4294967296) :
    decodeV (fuel + 1) ((bytesHeader bs.length ++ bs) ++ r)
      = some (.bytesV bs, r) := by
  unfold bytesHeader
  by_cases h256 : bs.length < 256
  · rw [if_pos h256]
    simp only [List.cons_append, List.nil_append, List.append_assoc,
      decodeV]
    norm_num
    rw [show (bs.length :: (bs ++ r)) = [bs.length] ++ (bs ++ r) from rfl,
      readN_of_length 1 [bs.length] (bs ++ r) rfl]
    simp [beVal_one, readN_exact]
  · rw [if_neg h256]
    by_cases h64 : bs.length < 65536
    · rw [if_pos h64]
      simp only [List.cons_append, List.nil_append, List.append_assoc,
        decodeV]
      norm_num
      rw [readN_of_length 2 (beBytes 2 bs.length) (bs ++ r)
        (beBytes_length 2 _)]
      simp [beVal_beBytes 2 bs.length (by norm_num; omega), readN_exact]
    · rw [if_neg h64]
      simp only [List.cons_append, List.nil_append, List.append_assoc,
        decodeV]
      norm_num
      rw [readN_of_length 4 (beBytes 4 bs.length) (bs ++ r)
        (beBytes_length 4 _)]
      simp [beVal_beBytes 4 bs.length (by norm_num; omega), readN_exact]

theorem decodeV_listMarker (fuel len : Nat) (t : List Nat)
    (h : len < 4294967296) :
    decodeV (fuel + 1) (lenHeader 0x90 0xD4 0xD5 0xD6 len ++ t)
      = (decodeItems fuel len t).map (fun p => (Value.listV p.1, p.2)) := by
  unfold lenHeader
  by_cases h16 : len < 16
  · rw [if_pos h16]
    simp only [List.cons_append, List.nil_append, decodeV]
    rw [if_neg (by omega), if_neg (by intro hcon; omega),
      if_neg (by omega), if_neg (by intro hcon; omega),
      if_neg (by omega), if_neg (by intro hcon; omega),
      if_neg (by omega), if_neg (by intro hcon; omega),
      if_neg (by omega), if_neg (by intro hcon; omega),
      if_neg (by omega), if_neg (by intro hcon; omega),
      if_neg (by omega), if_neg (by intro hcon; omega),
      if_pos ⟨by omega, by omega⟩]
    rw [show 0x90 + len - 0x90 = len from by omega]
  · rw [if_neg h16]
    by_cases h256 : len < 256
    · rw [if_pos h256]
      simp only [List.cons_append, List.nil_append, decodeV]
      norm_num
      rw [show (len :: t) = [len] ++ t from rfl,
        readN_of_length 1 [len] t rfl]
      simp [beVal_one]
    · rw [if_neg h256]
      by_cases h64 : len < 65536
      · rw [if_pos h64]
        simp only [List.cons_append, List.nil_append, List.append_assoc,
          decodeV]
        norm_num
        rw [readN_of_length 2 (beBytes 2 len) t (beBytes_length 2 _)]
        simp [beVal_beBytes 2 len (by norm_num; omega)]
      · rw [if_neg h64]
        simp only [List.cons_append, List.nil_append, List.append_assoc,
          decodeV]
        norm_num
        rw [readN_of_length 4 (beBytes 4 len) t (beBytes_length 4 _)]
        simp [beVal_beBytes 4 len (by norm_num; omega)]

theorem decodeV_mapMarker (fuel len : Nat) (t : List Nat)
    (h : len < 4294967296) :
    decodeV (fuel + 1) (lenHeader 0xA0 0xD8 0xD9 0xDA len ++ t)
      = (decodeEntries fuel len t).map (fun p => (Value.mapV p.1, p.2)) := by
  unfold lenHeader
  by_cases h16 : len < 16
  · rw [if_pos h16]
    simp only [List.cons_append, List.nil_append, decodeV]
    rw [if_neg (by omega), if_neg (by intro hcon; omega),
      if_neg (by omega), if_neg (by intro hcon; omega),
      if_neg (by omega), if_neg (by intro hcon; omega),
      if_neg (by omega), if_neg (by intro hcon; omega),
      if_neg (by omega), if_neg (by intro hcon; omega),
      if_neg (by omega), if_neg (by intro hcon; omega),
      if_neg (by omega), if_neg (by intro hcon; omega),
      if_neg (by omega), if_neg (by intro hcon; omega),
      if_neg (by omega), if_neg (by intro hcon; omega),
      if_pos ⟨by omega, by omega⟩]
    rw [show 0xA0 + len - 0xA0 = len from by omega]
  · rw [if_neg h16]
    by_cases h256 : len < 256
    · rw [if_pos h256]
      simp only [List.cons_append, List.nil_append, decodeV]
      norm_num
      rw [show (len :: t) = [len] ++ t from rfl,
        readN_of_length 1 [len] t rfl]
      simp [beVal_one]
    · rw [if_neg h256]
      by_cases h64 : len < 65536
      · rw [if_pos h64]
        simp only [List.cons_append, List.nil_append, List.append_assoc,
          decodeV]
        norm_num
        rw [readN_of_length 2 (beBytes 2 len) t (beBytes_length 2 _)]
        simp [beVal_beBytes 2 len (by norm_num; omega)]
      · rw [if_neg h64]
        simp only [List.cons_append, List.nil_append, List.append_assoc,
          decodeV]
        norm_num
        rw [readN_of_length 4 (beBytes 4 len) t (beBytes_length 4 _)]
        simp [beVal_beBytes 4 len (by norm_num; omega)]

theorem decodeV_structMarker (fuel len sig : Nat) (t : List Nat)
    (h : len < 16) :
    decodeV (fuel + 1) ((0xB0 + len) :: sig :: t)
      = (decodeItems fuel len t).map
          (fun q => (Value.structV sig q.1, q.2)) := by
  simp only [decodeV]
  rw [if_neg (by omega), if_neg (by intro hcon; omega),
    if_neg (by omega), if_neg (by intro hcon; omega),
    if_neg (by omega), if_neg (by intro hcon; omega),
    if_neg (by omega), if_neg (by intro hcon; omega),
    if_neg (by omega), if_neg (by intro hcon; omega),
    if_neg (by omega), if_neg (by intro hcon; omega),
    if_neg (by omega), if_neg (by intro hcon; omega),
    if_neg (by omega), if_neg (by intro hcon; omega),
    if_neg (by omega), if_neg (by intro hcon; omega),
    if_neg (by omega), if_neg (by intro hcon; omega),
    if_neg (by omega), if_neg (by intro hcon; omega),
    if_pos ⟨by omega, by omega⟩]
  rw [show (sig :: t) = [sig] ++ t from rfl,
    readN_of_length 1 [sig] t rfl]
  rw [show 0xB0 + len - 0xB0 = len from by omega]
  rfl

theorem decodeV_encInt (fuel : Nat) (n : Int) (r : List Nat)
    (h1 : -9223372036854775808 ≤ n) (h2 : n < 9223372036854775808) :
    decodeV (fuel + 1) (encInt n ++ r) = some (.intV n, r) := by
  unfold encInt
  by_cases c1 : 0 ≤ n ∧ n < 128
  · rw [if_pos c1]
    simp only [List.cons_append, List.nil_append]
    rw [decodeV_tinyPos fuel n.toNat r (by omega)]
    rw [Int.toNat_of_nonneg c1.1]
  · rw [if_neg c1]
    by_cases c2 : -16 ≤ n ∧ n < 0
    · rw [if_pos c2]
      simp only [List.cons_append, List.nil_append]
      rw [decodeV_tinyNeg fuel (n + 256).toNat r (by omega) (by omega)]
      rw [Int.toNat_of_nonneg (by omega)]
      norm_num
    · rw [if_neg c2]
      by_cases c3 : -128 ≤ n ∧ n < 128
      · rw [if_pos c3]
        simp only [List.cons_append]
        rw [decodeV_int8 fuel (twosEnc 1 n) r (twosEnc_length 1 n)]
        rw [twos_roundtrip 1 (by norm_num) n (by norm_num; omega)
          (by norm_num; omega)]
      · rw [if_neg c3]
        by_cases c4 : -32768 ≤ n ∧ n < 32768
        · rw [if_pos c4]
          simp only [List.cons_append]
          rw [decodeV_int16 fuel (twosEnc 2 n) r (twosEnc_length 2 n)]
          rw [twos_roundtrip 2 (by norm_num) n (by norm_num; omega)
            (by norm_num; omega)]
        · rw [if_neg c4]
          by_cases c5 : -2147483648 ≤ n ∧ n < 2147483648
          · rw [if_pos c5]
            simp only [List.cons_append]
            rw [decodeV_int32 fuel (twosEnc 4 n) r (twosEnc_length 4 n)]
            rw [twos_roundtrip 4 (by norm_num) n (by norm_num; omega)
              (by norm_num; omega)]
          · rw [if_neg c5]
            simp only [List.cons_append]
            rw [decodeV_int64 fuel (twosEnc 8 n) r (twosEnc_length 8 n)]
            rw [twos_roundtrip 8 (by norm_num) n (by norm_num; omega)
              (by norm_num; omega)]

theorem depth_pos (v : Value) : 1 ≤ depth v := by
  cases v <;> simp [depth]

theorem decodeItems_encodeList (fuel : Nat)
    (ih : ∀ v r, sizeOk v = true → depth v ≤ fuel →
      decodeV fuel (encodeV v ++ r) = some (v, r)) :
    ∀ vs r, sizeOkList vs = true → depthList vs ≤ fuel →
      decodeItems fuel vs.length (encodeList vs ++ r) = some (vs, r) := by
  intro vs
  induction vs with
  | nil => intro r _ _; simp [encodeList, decodeItems]
  | cons v vs ihv =>
    intro r hs hd
    simp only [sizeOkList, Bool.and_eq_true] at hs
    simp only [depthList, max_le_iff] at hd
    simp only [encodeList, List.length_cons, List.append_assoc,
      decodeItems]
    rw [ih v (encodeList vs ++ r) hs.1 hd.1]
    simp [ihv r hs.2 hd.2]

theorem decodeEntries_encodeEntries (fuel : Nat)
    (ih : ∀ v r, sizeOk v = true → depth v ≤ fuel →
      decodeV fuel (encodeV v ++ r) = some (v, r)) :
    ∀ es r, sizeOkEntries es = true → depthEntries es ≤ fuel →
      decodeEntries fuel es.length (encodeEntries es ++ r)
        = some (es, r) := by
  intro es
  induction es with
  | nil => intro r _ _; simp [encodeEntries, decodeEntries]
  | cons e es ihe =>
    intro r hs hd
    obtain ⟨k, v⟩ := e
    simp only [sizeOkEntries, Bool.and_eq_true, decide_eq_true_eq] at hs
    simp only [depthEntries, max_le_iff] at hd
    simp only [encodeEntries, List.length_cons, List.append_assoc,
      decodeEntries]
    rw [decodeStr_encodeStr k (encodeV v ++ (encodeEntries es ++ r))
      hs.1.1.1]
    rw [Option.some_bind]
    rw [ih v (encodeEntries es ++ r) hs.1.2 hd.1]
    simp [ihe r hs.2 hd.2]

theorem roundtrip_main :
    ∀ (fuel : Nat) (v : Value) (r : List Nat), sizeOk v = true →
      depth v ≤ fuel → decodeV fuel (encodeV v ++ r) = some (v, r) := by
  intro fuel
  induction fuel with
  | zero =>
    intro v r _ hd
    have := depth_pos v
    omega
  | succ fuel ih =>
    intro v r hs hd
    cases v with
    | nullV =>
      simp only [encodeV, List.cons_append, List.nil_append]
      exact decodeV_null fuel r
    | boolV b =>
      cases b with
      | false =>
        simp only [encodeV, List.cons_append, List.nil_append]
        exact decodeV_false fuel r
      | true =>
        simp only [encodeV, List.cons_append, List.nil_append]
        exact decodeV_true fuel r
    | intV n =>
      simp only [sizeOk, Bool.and_eq_true, decide_eq_true_eq] at hs
      simp only [encodeV]
      exact decodeV_encInt fuel n r hs.1 hs.2
    | floatV bits =>
      simp only [sizeOk, decide_eq_true_eq] at hs
      simp only [encodeV, List.cons_append]
      rw [decodeV_float fuel (beBytes 8 bits) r (beBytes_length 8 _)]
      rw [beVal_beBytes 8 bits (by norm_num; omega)]
    | strV s =>
      simp only [sizeOk, Bool.and_eq_true, decide_eq_true_eq] at hs
      simp only [encodeV]
      exact decodeV_str fuel s r hs.1
    | bytesV bs =>
      simp only [sizeOk, Bool.and_eq_true, decide_eq_true_eq] at hs
      simp only [encodeV]
      exact decodeV_bytesV fuel bs r hs.1
    | listV vs =>
      simp only [sizeOk, Bool.and_eq_true, decide_eq_true_eq] at hs
      simp only [depth] at hd
      simp only [encodeV, List.append_assoc]
      rw [decodeV_listMarker fuel vs.length (encodeList vs ++ r) hs.1]
      rw [decodeItems_encodeList fuel ih vs r hs.2 (by omega)]
      rfl
    | mapV es =>
      simp only [sizeOk, Bool.and_eq_true, decide_eq_true_eq] at hs
      simp only [depth] at hd
      simp only [encodeV, List.append_assoc]
      rw [decodeV_mapMarker fuel es.length (encodeEntries es ++ r) hs.1]
      rw [decodeEntries_encodeEntries fuel ih es r hs.2 (by omega)]
      rfl
    | structV sig fields =>
      simp only [sizeOk, Bool.and_eq_true, decide_eq_true_eq] at hs
      simp only [depth] at hd
      simp only [encodeV, List.cons_append]
      rw [decodeV_structMarker fuel fields.length sig
        (encodeList fields ++ r) hs.1.2]
      rw [decodeItems_encodeList fuel ih fields r hs.2 (by omega)]
      rfl

theorem lenHeader_pos (a b c d len : Nat) :
    1 ≤ (lenHeader a b c d len).length := by
  unfold lenHeader
  split_ifs <;> simp

theorem encodeV_pos :
    ∀ (fuel : Nat) (v : Value), depth v ≤ fuel →
      1 ≤ (encodeV v).length := by
  intro fuel
  induction fuel with
  | zero => intro v hd; have := depth_pos v; omega
  | succ fuel _ =>
    intro v _
    cases v with
    | nullV => simp [encodeV]
    | boolV b => cases b <;> simp [encodeV]
    | intV n =>
      simp only [encodeV]
      unfold encInt
      split_ifs <;> simp
    | floatV bits => simp [encodeV]
    | strV s =>
      simp only [encodeV, encodeStr, List.length_append]
      have := lenHeader_pos 0x80 0xD0 0xD1 0xD2 s.length
      omega
    | bytesV bs =>
      simp only [encodeV]
      unfold bytesHeader
      split_ifs <;> simp
    | listV vs =>
      simp only [encodeV, List.length_append]
      have := lenHeader_pos 0x90 0xD4 0xD5 0xD6 vs.length
      omega
    | mapV es =>
      simp only [encodeV, List.length_append]
      have := lenHeader_pos 0xA0 0xD8 0xD9 0xDA es.length
      omega
    | structV sig fields => simp [encodeV]

theorem depth_le_enc :
    ∀ (fuel : Nat) (v : Value), depth v ≤ fuel →
      depth v ≤ (encodeV v).length := by
  intro fuel
  induction fuel with
  | zero => intro v hd; have := depth_pos v; omega
  | succ fuel ih =>
    have hlist : ∀ vs : List Value, depthList vs ≤ fuel →
        depthList vs ≤ (encodeList vs).length := by
      intro vs
      induction vs with
      | nil => intro _; simp [depthList, encodeList]
      | cons v vs ihv =>
        intro hd
        simp only [depthList, max_le_iff] at hd
        simp only [depthList, encodeList, List.length_append, max_le_iff]
        have h1 := ih v hd.1
        have h2 := ihv hd.2
        omega
    have hentries : ∀ es : List (List Nat × Value),
        depthEntries es ≤ fuel →
        depthEntries es ≤ (encodeEntries es).length := by
      intro es
      induction es with
      | nil => intro _; simp [depthEntries, encodeEntries]
      | cons e es ihe =>
        intro hd
        obtain ⟨k, v⟩ := e
        simp only [depthEntries, max_le_iff] at hd
        simp only [depthEntries, encodeEntries, List.length_append,
          max_le_iff]
        have h1 := ih v hd.1
        have h2 := ihe hd.2
        omega
    intro v hd
    cases v with
    | nullV => simp [depth, encodeV]
    | boolV b => cases b <;> simp [depth, encodeV]
    | intV n =>
      simp only [depth, encodeV]
      unfold encInt
      split_ifs <;> simp
    | floatV bits => simp [depth, encodeV, beBytes_length]
    | strV s =>
      simp only [depth, encodeV, encodeStr, List.length_append]
      have := lenHeader_pos 0x80 0xD0 0xD1 0xD2 s.length
      omega
    | bytesV bs =>
      simp only [depth, encodeV]
      unfold bytesHeader
      split_ifs <;> simp
    | listV vs =>
      simp only [depth] at hd ⊢
      simp only [encodeV, List.length_append]
      have h1 := hlist vs (by omega)
      have h2 := lenHeader_pos 0x90 0xD4 0xD5 0xD6 vs.length
      omega
    | mapV es =>
      simp only [depth] at hd ⊢
      simp only [encodeV, List.length_append]
      have h1 := hentries es (by omega)
      have h2 := lenHeader_pos 0xA0 0xD8 0xD9 0xDA es.length
      omega
    | structV sig fields =>
      simp only [depth] at hd ⊢
      simp only [encodeV, List.length_cons]
      have h1 := hlist fields (by omega)
      omega

/-- Modelled from the spec: `encode(Message) -> byte sequence` (§4.1). -/
def encode (v : Value) : List Nat := encodeV v

/-- Modelled from the spec: `decode(byte sequence) -> Message` (§4.1);
the fuel is one more than the input length, which bounds any value's
nesting depth. -/
def decode (bs : List Nat) : Option (Value × List Nat) :=
  decodeV (bs.length + 1) bs

theorem decode_encode (v : Value) (r : List Nat) (hs : sizeOk v = true) :
    decode (encode v ++ r) = some (v, r) := by
  unfold decode encode
  have hde := depth_le_enc (depth v) v le_rfl
  apply roundtrip_main _ v r hs
  simp only [List.length_append]
  omega

theorem decode_encode_nil (v : Value) (hs : sizeOk v = true) :
    decode (encode v) = some (v, []) := by
  have h := decode_encode v [] hs
  rwa [List.append_nil] at h

/-- Embedded from `graph-types.d.ts`: a node — identity, label list and
property map (strings as byte content). -/
structure Node where
  identity : Int
  labels : List (List Nat)
  properties : List (List Nat × Value)

/-- Embedded from `graph-types.d.ts`: a relationship — identity, start
and end node identities, type and property map (`start`/`end` renamed
since `end` is reserved). -/
structure Relationship where
  identity : Int
  startId : Int
  endId : Int
  type : List Nat
  properties : List (List Nat × Value)

/-- Embedded from `graph-types.d.ts`: a relationship detached from its
endpoints. -/
structure UnboundRelationship where
  identity : Int
  type : List Nat
  properties : List (List Nat × Value)

/-- Modelled from the spec: the wire form of a path — the nodes, the
unbound relationships and the alternation sequence of the chain
(§4.1 "alternating node/relationship chain"). -/
structure Path where
  nodes : List Node
  rels : List UnboundRelationship
  sequence : List Int

/-- Modelled from the spec: a node as a generic tagged structure
(signature 0x4E). -/
def nodeToValue (n : Node) : Value :=
  .structV 0x4E
    [.intV n.identity, .listV (n.labels.map Value.strV),
     .mapV n.properties]

/-- Modelled from the spec: a relationship as a generic tagged structure
(signature 0x52). -/
def relToValue (r : Relationship) : Value :=
  .structV 0x52
    [.intV r.identity, .intV r.startId, .intV r.endId, .strV r.type,
     .mapV r.properties]

/-- Modelled from the spec: an unbound relationship as a generic tagged
structure (signature 0x72). -/
def unboundToValue (u : UnboundRelationship) : Value :=
  .structV 0x72 [.intV u.identity, .strV u.type, .mapV u.properties]

/-- Modelled from the spec: a path as a generic tagged structure
(signature 0x50). -/
def pathToValue (p : Path) : Value :=
  .structV 0x50
    [.listV (p.nodes.map nodeToValue),
     .listV (p.rels.map unboundToValue),
     .listV (p.sequence.map Value.intV)]

/-- Read a list of string values back as byte strings. -/
def strsOf : List Value → Option (List (List Nat))
  | [] => some []
  | .strV s :: vs => (strsOf vs).map fun l => s :: l
  | _ => none

/-- Parse a node back out of its tagged-structure value. -/
def nodeOfValue : Value → Option Node
  | .structV 78 [.intV i, .listV ls, .mapV props] =>
    (strsOf ls).map fun labs => ⟨i, labs, props⟩
  | _ => none

/-- Parse a relationship back out of its tagged-structure value. -/
def relOfValue : Value → Option Relationship
  | .structV 82 [.intV i, .intV s, .intV e, .strV t, .mapV props] =>
    some ⟨i, s, e, t, props⟩
  | _ => none

/-- Parse an unbound relationship back out of its tagged-structure
value. -/
def unboundOfValue : Value → Option UnboundRelationship
  | .structV 114 [.intV i, .strV t, .mapV props] => some ⟨i, t, props⟩
  | _ => none

/-- Read a list of node structures back. -/
def nodesOf : List Value → Option (List Node)
  | [] => some []
  | v :: vs =>
    (nodeOfValue v).bind fun n => (nodesOf vs).map fun ns => n :: ns

/-- Read a list of unbound relationship structures back. -/
def unboundsOf : List Value → Option (List UnboundRelationship)
  | [] => some []
  | v :: vs =>
    (unboundOfValue v).bind fun u => (unboundsOf vs).map fun us => u :: us

/-- Read a list of integer values back. -/
def intsOf : List Value → Option (List Int)
  | [] => some []
  | .intV n :: vs => (intsOf vs).map fun ns => n :: ns
  | _ => none

/-- Parse a path back out of its tagged-structure value. -/
def pathOfValue : Value → Option Path
  | .structV 80 [.listV ns, .listV rs, .listV seq] =>
    (nodesOf ns).bind fun nodes =>
      (unboundsOf rs).bind fun rels =>
        (intsOf seq).map fun sq => ⟨nodes, rels, sq⟩
  | _ => none

/-- Decode a node off a byte sequence. -/
def decodeNode (bs : List Nat) : Option Node :=
  (decode bs).bind fun p => nodeOfValue p.1

/-- Decode a relationship off a byte sequence. -/
def decodeRel (bs : List Nat) : Option Relationship :=
  (decode bs).bind fun p => relOfValue p.1

/-- Decode an unbound relationship off a byte sequence. -/
def decodeUnbound (bs : List Nat) : Option UnboundRelationship :=
  (decode bs).bind fun p => unboundOfValue p.1

/-- Decode a path off a byte sequence. -/
def decodePath (bs : List Nat) : Option Path :=
  (decode bs).bind fun p => pathOfValue p.1

theorem strsOf_map (ls : List (List Nat)) :
    strsOf (ls.map Value.strV) = some ls := by
  induction ls with
  | nil => rfl
  | cons s ls ih => simp [strsOf, ih]

theorem nodeOfValue_nodeToValue (n : Node) :
    nodeOfValue (nodeToValue n) = some n := by
  obtain ⟨i, ls, props⟩ := n
  simp [nodeToValue, nodeOfValue, strsOf_map]

theorem relOfValue_relToValue (r : Relationship) :
    relOfValue (relToValue r) = some r := by
  obtain ⟨i, s, e, t, props⟩ := r
  simp [relToValue, relOfValue]

theorem unboundOfValue_unboundToValue (u : UnboundRelationship) :
    unboundOfValue (unboundToValue u) = some u := by
  obtain ⟨i, t, props⟩ := u
  simp [unboundToValue, unboundOfValue]

theorem nodesOf_map (ns : List Node) :
    nodesOf (ns.map nodeToValue) = some ns := by
  induction ns with
  | nil => rfl
  | cons n ns ih => simp [nodesOf, nodeOfValue_nodeToValue, ih]

theorem unboundsOf_map (us : List UnboundRelationship) :
    unboundsOf (us.map unboundToValue) = some us := by
  induction us with
  | nil => rfl
  | cons u us ih => simp [unboundsOf, unboundOfValue_unboundToValue, ih]

theorem intsOf_map (xs : List Int) :
    intsOf (xs.map Value.intV) = some xs := by
  induction xs with
  | nil => rfl
  | cons x xs ih => simp [intsOf, ih]

theorem pathOfValue_pathToValue (p : Path) :
    pathOfValue (pathToValue p) = some p := by
  obtain ⟨ns, rs, sq⟩ := p
  simp [pathToValue, pathOfValue, nodesOf_map, unboundsOf_map, intsOf_map]

end Codec

/-- C2: for every valid value of the wire type grammar — null, boolean,
64-bit integer, 64-bit float pattern, string, byte array, list,
string-keyed map and the tagged domain structures node, relationship,
unbound relationship and path — decode inverts encode exactly,
consuming precisely the encoded bytes; in particular 64-bit integers
outside the safe native (53-bit) range round-trip losslessly. -/
theorem wire_roundtrip :
    (∀ (v : Codec.Value) (r : List Nat), Codec.sizeOk v = true →
      Codec.decode (Codec.encode v ++ r) = some (v, r))
    ∧ (∀ n : Codec.Node, Codec.sizeOk (Codec.nodeToValue n) = true →
      Codec.decodeNode (Codec.encode (Codec.nodeToValue n)) = some n)
    ∧ (∀ rel : Codec.Relationship,
        Codec.sizeOk (Codec.relToValue rel) = true →
      Codec.decodeRel (Codec.encode (Codec.relToValue rel)) = some rel)
    ∧ (∀ u : Codec.UnboundRelationship,
        Codec.sizeOk (Codec.unboundToValue u) = true →
      Codec.decodeUnbound (Codec.encode (Codec.unboundToValue u))
        = some u)
    ∧ (∀ p : Codec.Path, Codec.sizeOk (Codec.pathToValue p) = true →
      Codec.decodePath (Codec.encode (Codec.pathToValue p)) = some p) := by
  refine ⟨Codec.decode_encode, ?_, ?_, ?_, ?_⟩
  · intro n h
    unfold Codec.decodeNode
    rw [Codec.decode_encode_nil _ h, Option.some_bind]
    exact Codec.nodeOfValue_nodeToValue n
  · intro rel h
    unfold Codec.decodeRel
    rw [Codec.decode_encode_nil _ h, Option.some_bind]
    exact Codec.relOfValue_relToValue rel
  · intro u h
    unfold Codec.decodeUnbound
    rw [Codec.decode_encode_nil _ h, Option.some_bind]
    exact Codec.unboundOfValue_unboundToValue u
  · intro p h
    unfold Codec.decodePath
    rw [Codec.decode_encode_nil _ h, Option.some_bind]
    exact Codec.pathOfValue_pathToValue p

/-- Closed witness for `wire_roundtrip`: the integer 2^53 + 1 (outside
the safe native range) and a concrete one-label, one-property node both
round-trip. -/
theorem wire_roundtrip_witness :
    Codec.decode (Codec.encode (.intV 9007199254740993) ++ [])
      = some (.intV 9007199254740993, [])
    ∧ Codec.decodeNode (Codec.encode (Codec.nodeToValue
        ⟨7, [[78, 111, 100, 101]], [([105, 100], .intV 42)]⟩))
      = some ⟨7, [[78, 111, 100, 101]], [([105, 100], .intV 42)]⟩ :=
  ⟨wire_roundtrip.1 (.intV 9007199254740993) []
      (by simp [Codec.sizeOk]),
   wire_roundtrip.2.1 ⟨7, [[78, 111, 100, 101]], [([105, 100], .intV 42)]⟩
      (by simp [Codec.nodeToValue, Codec.sizeOk, Codec.sizeOkList,
        Codec.sizeOkEntries])⟩
